import Mathlib

/-!
Verification of the json-processor data-format workbench core.

This file gives a shallow embedding of the core logic of the repository:

* `parseRecursive` (src/utils/jsonParser.ts): the recursive unwrapper that
  repairs stringified-within-stringified JSON;
* `smartParse` (src/utils/smartParser.ts): the format auto-detector over
  JSON / XML / YAML / CSV candidates;
* the schema generators (src/utils/generators.ts):
  `generateTypeScriptInterfaces`, `generateZodSchema`, `generateJavaPOJO`,
  `generateSqlDDL`.

Modelling conventions:

* JavaScript runtime values produced by parsing are modelled by the tagged
  union `JsonValue` (null / boolean / number / string / array / object).
  Objects are ordered key-value lists, mirroring JS insertion order.
* JS numbers are modelled by `Rat`.  Every numeric literal appearing in the
  claims is exactly representable as a double, so `Rat` agrees with the JS
  semantics on them; `Number.isInteger q` is modelled by `q.den = 1`.
* `JSON.parse` is modelled by `parseJson`, a character-level strict JSON
  parser (RFC 8259 grammar: value with surrounding whitespace; strings with
  the escape set of JSON; numbers `-? int frac? exp?`).  It is written with
  an explicit fuel argument so that it is structurally recursive and
  computes by kernel reduction; each recursive step consumes at least one
  input character every two fuel units, so fuel `2 * length + 4` never runs
  out.
* Functions that recurse through parsed structure (the unwrapper, the
  generators) also take fuel; the exported wrappers instantiate the fuel
  with the weight `jweight v` of the input, which is proved (or argued in
  comments) sufficient.
* The external collaborator parsers used by `smartParse` (js-yaml `load`,
  xml-js `xml2js`, papaparse `parse`) are out of scope per the spec; they
  are modelled as an oracle record `ExternalParsers` that `smartParse`
  takes as a parameter.  Thrown exceptions are modelled by `Except`.
* JS exception behaviour: code of the form `try ... catch (e) ...` is
  modelled in the `Except String` monad with an explicit catch combinator;
  `smartParseE` is the exception-level model of `smartParse` and is proved
  to never propagate an exception.
-/

namespace JsonProcessor

/-- Tagged union of JavaScript values reachable from parsing JSON / YAML /
XML / CSV input: null, booleans, numbers, strings, arrays and plain objects
with ordered string keys. -/
inductive JsonValue where
  | null : JsonValue
  | bool (b : Bool) : JsonValue
  | num (q : Rat) : JsonValue
  | str (s : String) : JsonValue
  | arr (elems : List JsonValue) : JsonValue
  | obj (fields : List (String × JsonValue)) : JsonValue

mutual

/-- Weight of a value: every node counts 1 and a string leaf counts its
length plus 2 (the two quotes its JSON source text must at least contain).
Used as fuel bound for the fueled recursions: a successful `parseJson s`
always returns a value of weight at most `s.length` (theorem
`parseJson_weight` below), which makes the weight decrease strictly at
every unwrapping step. -/
def jweight : JsonValue → Nat
  | .null => 1
  | .bool _ => 1
  | .num _ => 1
  | .str s => s.length + 2
  | .arr xs => jweightList xs + 1
  | .obj fs => jweightFields fs + 1

/-- Sum of the weights of a list of values. -/
def jweightList : List JsonValue → Nat
  | [] => 0
  | v :: vs => jweight v + jweightList vs

/-- Sum of the weights of the values of a key-value list. -/
def jweightFields : List (String × JsonValue) → Nat
  | [] => 0
  | kv :: fs => jweight kv.2 + jweightFields fs

end

/-! ## The JSON.parse model -/

/-- Whitespace of the JSON grammar (space, tab, line feed, carriage return). -/
def isWsChar (c : Char) : Bool := c = ' ' || c = '\t' || c = '\n' || c = '\r'

/-- Drop leading JSON whitespace. -/
def skipWs : List Char → List Char
  | [] => []
  | c :: cs => if isWsChar c then skipWs cs else c :: cs

/-- Value of a hexadecimal digit, if the character is one. -/
def hexDigitVal (c : Char) : Option Nat :=
  if c.isDigit then some (c.toNat - 48)
  else if 'a' ≤ c && c ≤ 'f' then some (c.toNat - 97 + 10)
  else if 'A' ≤ c && c ≤ 'F' then some (c.toNat - 65 + 10)
  else none

/-- Single-character JSON string escapes (everything except the \u form). -/
def escChar (e : Char) : Option Char :=
  if e = '"' then some '"'
  else if e = '\\' then some '\\'
  else if e = '/' then some '/'
  else if e = 'b' then some '\x08'
  else if e = 'f' then some '\x0c'
  else if e = 'n' then some '\n'
  else if e = 'r' then some '\r'
  else if e = 't' then some '\t'
  else none

/-- Parse the body of a JSON string literal after the opening quote, up to
and including the closing quote.  Returns the decoded characters and the
remaining input.  Raw control characters below 0x20 are rejected, as in
`JSON.parse`. -/
def parseStringBody : List Char → Option (List Char × List Char)
  | [] => none
  | c :: cs =>
    if c = '"' then some ([], cs)
    else if c = '\\' then
      match cs with
      | 'u' :: h1 :: h2 :: h3 :: h4 :: cs3 =>
        match hexDigitVal h1, hexDigitVal h2, hexDigitVal h3, hexDigitVal h4 with
        | some a, some b, some c3, some d =>
          (parseStringBody cs3).map
            (fun p => (Char.ofNat (((a * 16 + b) * 16 + c3) * 16 + d) :: p.1, p.2))
        | _, _, _, _ => none
      | e :: cs2 =>
        match escChar e with
        | some ch => (parseStringBody cs2).map (fun p => (ch :: p.1, p.2))
        | none => none
      | [] => none
    else if c.toNat < 32 then none
    else (parseStringBody cs).map (fun p => (c :: p.1, p.2))

/-- Accumulate decimal digits into a natural number. -/
def digitsToNat (acc : Nat) : List Char → Nat
  | [] => acc
  | c :: cs => digitsToNat (acc * 10 + (c.toNat - 48)) cs

/-- Integer part of a JSON number: `0`, or a nonzero digit followed by
digits (leading zeros are not part of the grammar). -/
def parseIntPart : List Char → Option (Nat × List Char)
  | [] => none
  | c :: rest =>
    if c = '0' then some (0, rest)
    else if c.isDigit then
      some (digitsToNat (c.toNat - 48) (rest.takeWhile Char.isDigit),
            rest.dropWhile Char.isDigit)
    else none

/-- Optional fraction part `.digits` of a JSON number; returns the digits
value together with the digit count. -/
def parseFrac : List Char → Option ((Nat × Nat) × List Char)
  | '.' :: rest =>
    if (rest.takeWhile Char.isDigit).isEmpty then none
    else
      some ((digitsToNat 0 (rest.takeWhile Char.isDigit),
             (rest.takeWhile Char.isDigit).length),
            rest.dropWhile Char.isDigit)
  | cs => some ((0, 0), cs)

/-- Mandatory digits of an exponent part, with sign already decided. -/
def expDigits (neg : Bool) (cs : List Char) : Option (Int × List Char) :=
  if (cs.takeWhile Char.isDigit).isEmpty then none
  else
    some (if neg then -(digitsToNat 0 (cs.takeWhile Char.isDigit) : Int)
          else (digitsToNat 0 (cs.takeWhile Char.isDigit) : Int),
          cs.dropWhile Char.isDigit)

/-- Optional exponent part `e`/`E` with optional sign of a JSON number. -/
def parseExpPart : List Char → Option (Int × List Char)
  | 'e' :: '+' :: r => expDigits false r
  | 'e' :: '-' :: r => expDigits true r
  | 'e' :: r => expDigits false r
  | 'E' :: '+' :: r => expDigits false r
  | 'E' :: '-' :: r => expDigits true r
  | 'E' :: r => expDigits false r
  | cs => some (0, cs)

/-- Assemble a rational from sign, integer part, fraction digits (value and
count) and exponent. -/
def mkJsonNum (neg : Bool) (ip fv fk : Nat) (e : Int) : Rat :=
  let m : Int := (ip * 10 ^ fk + fv : Nat)
  let sm : Int := if neg then -m else m
  if 0 ≤ e then mkRat (sm * (10 : Int) ^ e.toNat) (10 ^ fk)
  else mkRat sm (10 ^ fk * 10 ^ (-e).toNat)

/-- Optional leading minus sign of a JSON number. -/
def numSign : List Char → Bool × List Char
  | '-' :: rest => (true, rest)
  | cs => (false, cs)

/-- Parse a JSON number `-? int frac? exp?`. -/
def parseNumber (cs0 : List Char) : Option (Rat × List Char) :=
  match parseIntPart (numSign cs0).2 with
  | none => none
  | some (ip, cs2) =>
    match parseFrac cs2 with
    | none => none
    | some ((fv, fk), cs3) =>
      match parseExpPart cs3 with
      | none => none
      | some (e, cs4) => some (mkJsonNum (numSign cs0).1 ip fv fk e, cs4)

/-- Loop over the comma-separated elements of a JSON array, consuming the
closing bracket.  The element parser is passed as a parameter; the fuel
bounds the number of elements. -/
def elemsLoop (pv : List Char → Option (JsonValue × List Char)) :
    Nat → List Char → Option (List JsonValue × List Char)
  | 0, _ => none
  | f+1, cs =>
    match pv cs with
    | none => none
    | some (v, r1) =>
      match skipWs r1 with
      | ',' :: r2 =>
        match elemsLoop pv f (skipWs r2) with
        | some (vs, rest) => some (v :: vs, rest)
        | none => none
      | ']' :: r2 => some ([v], r2)
      | _ => none

/-- Loop over the comma-separated members of a JSON object, consuming the
closing brace.  The value parser is passed as a parameter; the fuel bounds
the number of members. -/
def membersLoop (pv : List Char → Option (JsonValue × List Char)) :
    Nat → List Char → Option (List (String × JsonValue) × List Char)
  | 0, _ => none
  | f+1, cs =>
    match cs with
    | '"' :: r =>
      match parseStringBody r with
      | some (kl, r1) =>
        match skipWs r1 with
        | ':' :: r2 =>
          match pv (skipWs r2) with
          | some (v, r3) =>
            match skipWs r3 with
            | ',' :: r4 =>
              match membersLoop pv f (skipWs r4) with
              | some (ms, rest) => some ((String.mk kl, v) :: ms, rest)
              | none => none
            | '}' :: r4 => some ([(String.mk kl, v)], r4)
            | _ => none
          | none => none
        | _ => none
      | none => none
    | _ => none

/-- Parse a single JSON value starting at the first non-whitespace
character, returning the value and the remaining input.  Objects are kept
as ordered key-value lists in source order (`JSON.parse` keeps the last of
duplicate keys; no claim involves duplicate keys, and the model keeps
both occurrences in order). -/
def parseVal : Nat → List Char → Option (JsonValue × List Char)
  | 0, _ => none
  | f+1, cs =>
    match cs with
    | '{' :: r =>
      (match skipWs r with
       | '}' :: r2 => some (.obj [], r2)
       | r1 =>
         match membersLoop (parseVal f) f r1 with
         | some (ms, rest) => some (.obj ms, rest)
         | none => none)
    | '[' :: r =>
      (match skipWs r with
       | ']' :: r2 => some (.arr [], r2)
       | r1 =>
         match elemsLoop (parseVal f) f r1 with
         | some (vs, rest) => some (.arr vs, rest)
         | none => none)
    | '"' :: r => (parseStringBody r).map (fun p => (.str (String.mk p.1), p.2))
    | 'n' :: 'u' :: 'l' :: 'l' :: r => some (.null, r)
    | 't' :: 'r' :: 'u' :: 'e' :: r => some (.bool true, r)
    | 'f' :: 'a' :: 'l' :: 's' :: 'e' :: r => some (.bool false, r)
    | c :: _ =>
      if c = '-' || c.isDigit then
        match parseNumber cs with
        | some (q, rest) => some (.num q, rest)
        | none => none
      else none
    | [] => none

/-- Model of `JSON.parse`: parse one value with surrounding whitespace; any
leftover input is a syntax error.  `none` models a thrown `SyntaxError`.
Fuel `2 * length + 4` suffices: every two consecutive fuel decrements
consume at least one input character. -/
def parseJson (s : String) : Option JsonValue :=
  match parseVal (2 * s.length + 4) (skipWs s.data) with
  | some (v, rest) => if skipWs rest = [] then some v else none
  | none => none

/-! ## The recursive unwrapper (parseRecursive, src/utils/jsonParser.ts) -/

/-- JavaScript strict equality `v === s` between an arbitrary value `v` and
a string `s`: true exactly when `v` is a string of the same content
(`===` between values of different runtime types is false). -/
def strictEqStr (v : JsonValue) (s : String) : Bool :=
  match v with
  | .str t => t = s
  | _ => false

/-- Fueled body of `parseRecursive`.  Mirrors the source: non-strings are
traversed element-wise (arrays) or value-wise (objects) with primitives
returned as is; a string is given to `JSON.parse`, a parse failure returns
the original string, a parsed value strictly equal (`===`) to the input is
returned as is, a non-object non-string parsed primitive is returned
directly, and otherwise the parsed result is unwrapped recursively.
Fuel 0 returns the input unchanged; it is unreachable from fuel
`jweight v` because each recursive call strictly decreases the weight
(children of arrays and objects are lighter, and by `parseJson_weight` a
parse of `s` weighs at most `s.length < jweight (.str s)`). -/
def unwrapF : Nat → JsonValue → JsonValue
  | 0, v => v
  | f+1, v =>
    match v with
    | .arr xs => .arr (xs.map (unwrapF f))
    | .obj fs => .obj (fs.map (fun kv => (kv.1, unwrapF f kv.2)))
    | .str s =>
      match parseJson s with
      | none => .str s
      | some w =>
        if strictEqStr w s then w
        else
          match w with
          | .num q => .num q
          | .bool b => .bool b
          | w2 => unwrapF f w2
    | prim => prim

/-- Model of `parseRecursive` from src/utils/jsonParser.ts, with the fuel
instantiated at the always-sufficient bound `jweight v`. -/
def parseRecursive (v : JsonValue) : JsonValue := unwrapF (jweight v) v

/-- A value contains no string-encoded JSON at any depth: every string leaf
fails to parse as JSON. -/
inductive Flat : JsonValue → Prop where
  | null : Flat .null
  | bool (b : Bool) : Flat (.bool b)
  | num (q : Rat) : Flat (.num q)
  | str (s : String) : parseJson s = none → Flat (.str s)
  | arr (xs : List JsonValue) : (∀ x ∈ xs, Flat x) → Flat (.arr xs)
  | obj (fs : List (String × JsonValue)) : (∀ kv ∈ fs, Flat kv.2) → Flat (.obj fs)

/-! ## The format detector (smartParse, src/utils/smartParser.ts) -/

/-- The format enumeration of a `ParseResult`. -/
inductive Format where
  | json : Format
  | yaml : Format
  | xml : Format
  | csv : Format
  | unknown : Format
deriving DecidableEq

/-- Result record of the detector.  `data` is `JsonValue.null` when the
source stores JS `null` in the `data` field. -/
structure ParseResult where
  data : JsonValue
  format : Format
  error : Option String := none

/-- Result record of papaparse `Papa.parse(text, header: true,
skipEmptyLines: true)`: parsed rows and an error list. -/
structure CsvResult where
  data : List JsonValue
  errors : List String

/-- Oracle record for the three external collaborator parsers used by
`smartParse`.  Per the spec these are out-of-scope black boxes; `Except`
models their thrown exceptions (`Except.error` = throw). -/
structure ExternalParsers where
  xml2js : String → Except String JsonValue
  yamlLoad : String → Except String JsonValue
  papaParse : String → CsvResult

/-- JavaScript whitespace trimmed by `String.prototype.trim` (restricted to
the ASCII whitespace occurring in the claims). -/
def trimJS (s : String) : String :=
  String.mk (((s.data.dropWhile fun c => isWsChar c).reverse.dropWhile
      fun c => isWsChar c).reverse)

/-- `s.startsWith(p)` for a one-character prefix `p`, the only form the
source uses: the first character equals `c`. -/
def startsWithCh (s : String) (c : Char) : Bool :=
  match s.data with
  | [] => false
  | d :: _ => d = c

/-- `s.includes(c)` for a one-character needle, the only form the source
uses. -/
def hasChar (s : String) (c : Char) : Bool := s.data.contains c

/-- JS test of: typeof v equals the object type and v is not null; true
exactly for objects and arrays. -/
def isObjLike (v : JsonValue) : Bool :=
  match v with
  | .obj _ => true
  | .arr _ => true
  | _ => false

/-- The fixed diagnostic message of the detector fallback. -/
def cannotDetectMsg : String :=
  "Could not auto-detect format. Please ensure valid JSON, XML, YAML, or CSV."

/-- `JSON.parse` as a throwing primitive: `Except.error` models the thrown
`SyntaxError`. -/
def jsonParseThrow (s : String) : Except String JsonValue :=
  match parseJson s with
  | some v => Except.ok v
  | none => Except.error "SyntaxError: invalid JSON"

/-- Body of the JSON candidate try-block: if the trimmed text starts with a
brace, bracket or quote, unwrap it recursively, check it with strict
`JSON.parse` (which may throw) and report format json; otherwise produce
no result. -/
def jsonTryBody (t : String) : Except String (Option ParseResult) :=
  if startsWithCh t '{' || startsWithCh t '[' || startsWithCh t '"' then
    match jsonParseThrow t with
    | Except.error e => Except.error e
    | Except.ok _ => Except.ok (some { data := parseRecursive (.str t), format := .json })
  else Except.ok none

/-- Body of the XML candidate try-block: if the trimmed text starts with an
angle bracket, parse through the xml-js oracle (which may throw) and report
format xml. -/
def xmlTryBody (ext : ExternalParsers) (t : String) : Except String (Option ParseResult) :=
  if startsWithCh t '<' then
    match ext.xml2js t with
    | Except.error e => Except.error e
    | Except.ok xmlData => Except.ok (some { data := xmlData, format := .xml })
  else Except.ok none

/-- Body of the YAML candidate try-block: only attempted when the text has
both a colon and a newline; the js-yaml oracle may throw, and a result is
accepted only when it is a non-null object or array. -/
def yamlTryBody (ext : ExternalParsers) (t : String) : Except String (Option ParseResult) :=
  if hasChar t ':' && hasChar t '\n' then
    match ext.yamlLoad t with
    | Except.error e => Except.error e
    | Except.ok yamlData =>
      if isObjLike yamlData then Except.ok (some { data := yamlData, format := .yaml })
      else Except.ok none
  else Except.ok none

/-- Body of the CSV candidate try-block: accept when papaparse reports no
errors, at least one row, and the first row is object-typed with more than
one key.  `Object.keys` on a JS array counts its indices; on `null` it
throws (the throw is swallowed by the catch around the block). -/
def csvTryBody (ext : ExternalParsers) (t : String) : Except String (Option ParseResult) :=
  if (ext.papaParse t).errors.isEmpty && !(ext.papaParse t).data.isEmpty then
    match (ext.papaParse t).data with
    | first :: _ =>
      match first with
      | .null => Except.error "TypeError: cannot convert null to object"
      | .obj fs =>
        if fs.length > 1 then
          Except.ok (some { data := .arr (ext.papaParse t).data, format := .csv })
        else Except.ok none
      | .arr xs =>
        if xs.length > 1 then
          Except.ok (some { data := .arr (ext.papaParse t).data, format := .csv })
        else Except.ok none
      | _ => Except.ok none
    | [] => Except.ok none
  else Except.ok none

/-- Body of the fallback try-block: one last recursive-unwrap attempt on
the raw (untrimmed) input; report json when it produced something other
than the input string itself (`!==`). -/
def fallbackTryBody (input : String) : Except String (Option ParseResult) :=
  if !strictEqStr (parseRecursive (.str input)) input then
    Except.ok (some { data := parseRecursive (.str input), format := .json })
  else Except.ok none

/-- The empty `catch` block of the source: an exception from the try body
is swallowed and the detector falls through to the next candidate. -/
def catchAll (x : Except String (Option ParseResult)) : Option ParseResult :=
  match x with
  | Except.ok r => r
  | Except.error _ => none

/-- Model of `smartParse` from src/utils/smartParser.ts: trim, return
unknown on empty text, then try the JSON, XML, YAML and CSV candidates and
the fallback JSON retry in order, each wrapped in try/catch, and otherwise
report unknown with the fixed diagnostic. -/
def smartParse (ext : ExternalParsers) (input : String) : ParseResult :=
  if trimJS input = "" then { data := .null, format := .unknown }
  else
    match catchAll (jsonTryBody (trimJS input)) with
    | some r => r
    | none =>
      match catchAll (xmlTryBody ext (trimJS input)) with
      | some r => r
      | none =>
        match catchAll (yamlTryBody ext (trimJS input)) with
        | some r => r
        | none =>
          match catchAll (csvTryBody ext (trimJS input)) with
          | some r => r
          | none =>
            match catchAll (fallbackTryBody input) with
            | some r => r
            | none => { data := .null, format := .unknown, error := some cannotDetectMsg }

/-- Exception-level model of `smartParse` in the `Except` monad: each
try-block body may throw, and each `jsCatchStep` is one source-level
`try ... catch` that recovers by continuing with the next candidate.
An uncaught exception would surface as `Except.error`; theorem
`smartParseE_total` shows none ever does. -/
def jsCatchStep (x : Except String (Option ParseResult)) : Except String (Option ParseResult) :=
  match x with
  | Except.ok r => Except.ok r
  | Except.error _ => Except.ok none

/-- The detector with explicit exception plumbing; see `jsCatchStep`. -/
def smartParseE (ext : ExternalParsers) (input : String) : Except String ParseResult := do
  if trimJS input = "" then pure { data := .null, format := .unknown }
  else
    match ← jsCatchStep (jsonTryBody (trimJS input)) with
    | some r => pure r
    | none =>
      match ← jsCatchStep (xmlTryBody ext (trimJS input)) with
      | some r => pure r
      | none =>
        match ← jsCatchStep (yamlTryBody ext (trimJS input)) with
        | some r => pure r
        | none =>
          match ← jsCatchStep (csvTryBody ext (trimJS input)) with
          | some r => pure r
          | none =>
            match ← jsCatchStep (fallbackTryBody input) with
            | some r => pure r
            | none => pure { data := .null, format := .unknown, error := some cannotDetectMsg }

/-! ## The schema generators (src/utils/generators.ts) -/

/-- JS `s.charAt(0).toUpperCase() + s.slice(1)` (ASCII uppercase suffices
for the identifiers involved). -/
def capitalize (s : String) : String :=
  match s.data with
  | [] => ""
  | c :: cs => String.mk (c.toUpper :: cs)

/-- First character class of the identifier regex `[a-zA-Z_$]`. -/
def isIdentStartCh (c : Char) : Bool := c.isAlpha || c = '_' || c = '$'

/-- Continuation character class of the identifier regex `[a-zA-Z0-9_$]`. -/
def isIdentCh (c : Char) : Bool := c.isAlphanum || c = '_' || c = '$'

/-- The identifier test regex of the generators. -/
def isValidIdentKey (s : String) : Bool :=
  match s.data with
  | [] => false
  | c :: cs => isIdentStartCh c && cs.all isIdentCh

/-- Quote a key when it is not a valid identifier, as both the interface
and validator generators do. -/
def cleanKey (key : String) : String :=
  if isValidIdentKey key then key else "\"" ++ key ++ "\""

/-- JS `typeof` as a string, on parsed values. -/
def typeofName (v : JsonValue) : String :=
  match v with
  | .str _ => "string"
  | .num _ => "number"
  | .bool _ => "boolean"
  | _ => "object"

/-- JS test of: typeof v equals the object type (true for objects, arrays
and null). -/
def typeofIsObject (v : JsonValue) : Bool :=
  match v with
  | .obj _ => true
  | .arr _ => true
  | .null => true
  | _ => false

/-- Deduplication keeping first occurrences, as `Array.from(new Set(l))`. -/
def dedupFirstAux (seen : List String) : List String → List String
  | [] => []
  | s :: rest =>
    if seen.contains s then dedupFirstAux seen rest
    else s :: dedupFirstAux (s :: seen) rest

/-- See `dedupFirstAux`. -/
def dedupFirst (l : List String) : List String := dedupFirstAux [] l

/-- The `getTypeName` helper of the TypeScript generator (fueled through
nested arrays; the wrapper supplies weight fuel which never runs out). -/
def getTypeName : Nat → JsonValue → String
  | _, .null => "null"
  | _+1, .arr [] => "any[]"
  | f+1, .arr xs => String.intercalate " | " (dedupFirst (xs.map (getTypeName f))) ++ "[]"
  | 0, .arr _ => "any[]"
  | _, .obj _ => "object"
  | _, .str _ => "string"
  | _, .num _ => "number"
  | _, .bool _ => "boolean"

/-- One field of the interface traversal: the rendered entry line plus the
interface blocks pushed while processing the field (nested object types
and object-array item types). -/
def tsFieldStep (tr : JsonValue → String → List String) (gt : JsonValue → String)
    (key : String) (value : JsonValue) : String × List String :=
  let ck := cleanKey key
  match value with
  | .null => ("  " ++ ck ++ ": null;", [])
  | .arr (x :: rest) =>
    if isObjLike x then
      let typeName := capitalize key ++ "Item"
      ("  " ++ ck ++ ": " ++ typeName ++ "[];", tr x typeName)
    else ("  " ++ ck ++ ": " ++ gt (.arr (x :: rest)) ++ ";", [])
  | .arr [] => ("  " ++ ck ++ ": " ++ gt (.arr []) ++ ";", [])
  | .obj fs =>
    let typeName := capitalize key
    ("  " ++ ck ++ ": " ++ typeName ++ ";", tr (.obj fs) typeName)
  | v => ("  " ++ ck ++ ": " ++ typeofName v ++ ";", [])

/-- Process the entries of one object: entry lines in field order, together
with all blocks pushed during the loop (in push order). -/
def tsFields (tr : JsonValue → String → List String) (gt : JsonValue → String) :
    List (String × JsonValue) → List String × List String
  | [] => ([], [])
  | (key, value) :: rest =>
    let eb := tsFieldStep tr gt key value
    let tl := tsFields tr gt rest
    (eb.1 :: tl.1, eb.2 ++ tl.2)

/-- Render one `export interface` block. -/
def tsInterfaceBlock (name : String) (entries : List String) : String :=
  "export interface " ++ name ++ " \x7b\n" ++ String.intercalate "\n" entries ++ "\n\x7d"

/-- The `traverse` of the TypeScript generator: returns the interface
blocks in the order they are pushed onto the `interfaces` array (nested
blocks during the field loop, the own block afterwards). -/
def tsTraverse : Nat → JsonValue → String → List String
  | 0, _, _ => []
  | f+1, v, name =>
    match v with
    | .obj fields =>
      let p := tsFields (tsTraverse f) (getTypeName f) fields
      p.2 ++ [tsInterfaceBlock name p.1]
    | .arr (x :: _) => tsTraverse f x name
    | _ => []

/-- The interface blocks in final output order (`interfaces.reverse()`). -/
def tsBlocks (json : JsonValue) (rootName : String) : List String :=
  (tsTraverse (jweight json) json rootName).reverse

/-- Model of `generateTypeScriptInterfaces`. -/
def generateTypeScriptInterfaces (json : JsonValue) (rootName : String := "Root") : String :=
  String.intercalate "\n\n" (tsBlocks json rootName)

/-- The `traverse` of the Zod generator. -/
def zodTraverse : Nat → JsonValue → String
  | _, .null => "z.null()"
  | _+1, .arr [] => "z.array(z.any())"
  | f+1, .arr (x :: _) => "z.array(" ++ zodTraverse f x ++ ")"
  | f+1, .obj fields =>
    "z.object(\x7b\n"
      ++ String.intercalate ",\n"
          (fields.map (fun kv => "  " ++ cleanKey kv.1 ++ ": " ++ zodTraverse f kv.2))
      ++ "\n\x7d)"
  | 0, .arr _ => "z.any()"
  | 0, .obj _ => "z.any()"
  | _, .str _ => "z.string()"
  | _, .num _ => "z.number()"
  | _, .bool _ => "z.boolean()"

/-- Model of `generateZodSchema`. -/
def generateZodSchema (json : JsonValue) (rootName : String := "schema") : String :=
  "import \x7b z \x7d from \x27zod\x27;\n\n"
    ++ "export const " ++ rootName ++ " = " ++ zodTraverse (jweight json) json ++ ";"

/-- The `getJavaType` helper of the POJO generator. -/
def getJavaType : Nat → JsonValue → String
  | _, .null => "Object"
  | _, .str _ => "String"
  | _, .num q => if q.den = 1 then "Integer" else "Double"
  | _, .bool _ => "Boolean"
  | _+1, .arr [] => "List<Object>"
  | f+1, .arr (x :: _) => "List<" ++ getJavaType f x ++ ">"
  | 0, .arr _ => "List<Object>"
  | _, .obj _ => "Object"

/-- One field of the POJO traversal: the rendered annotated field plus the
class blocks pushed while processing the field.  Note the source tests
whether typeof of the first element is the object type, without a null
check here, so a leading
null element also takes the nested-class path (where traversing null
pushes nothing); `getJavaType(value[0])` on an empty array sees
`undefined` and yields `Object`. -/
def javaFieldStep (tr : JsonValue → String → List String) (gj : JsonValue → String)
    (key : String) (value : JsonValue) : String × List String :=
  let ft : String × List String :=
    match value with
    | .null => ("Object", [])
    | .arr (x :: _) =>
      if typeofIsObject x then
        let nested := capitalize key ++ "Item"
        ("List<" ++ nested ++ ">", tr x nested)
      else ("List<" ++ gj x ++ ">", [])
    | .arr [] => ("List<Object>", [])
    | .obj fs =>
      let nested := capitalize key
      (nested, tr (.obj fs) nested)
    | v => (gj v, [])
  ("    @JsonProperty(\"" ++ key ++ "\")\n    private " ++ ft.1 ++ " " ++ key ++ ";", ft.2)

/-- Process the entries of one object for the POJO generator. -/
def javaFields (tr : JsonValue → String → List String) (gj : JsonValue → String) :
    List (String × JsonValue) → List String × List String
  | [] => ([], [])
  | (key, value) :: rest =>
    let eb := javaFieldStep tr gj key value
    let tl := javaFields tr gj rest
    (eb.1 :: tl.1, eb.2 ++ tl.2)

/-- Render one annotated `public class` block. -/
def javaClassDecl (className : String) (fields : List String) : String :=
  "@Data\npublic class " ++ className ++ " \x7b\n" ++ String.intercalate "\n\n" fields ++ "\n\x7d"

/-- The `traverse` of the POJO generator, in push order. -/
def javaTraverse : Nat → JsonValue → String → List String
  | 0, _, _ => []
  | f+1, v, className =>
    match v with
    | .obj fields =>
      let p := javaFields (javaTraverse f) (getJavaType f) fields
      p.2 ++ [javaClassDecl className p.1]
    | .arr (x :: _) => if typeofIsObject x then javaTraverse f x className else []
    | _ => []

/-- The class blocks in final output order (`classes.reverse()`). -/
def javaClasses (json : JsonValue) (rootClassName : String) : List String :=
  (javaTraverse (jweight json) json rootClassName).reverse

/-- Model of `generateJavaPOJO`. -/
def generateJavaPOJO (json : JsonValue) (rootClassName : String := "Root") : String :=
  "import com.fasterxml.jackson.annotation.JsonProperty;\nimport lombok.Data;\nimport java.util.List;\n\n"
    ++ String.intercalate "\n\n" (javaClasses json rootClassName)

/-- JS `key.replace(/([A-Z])/g, _$1).toLowerCase()`: prefix each capital
with an underscore, then lowercase everything. -/
def camelToSnake (key : String) : String :=
  String.mk ((key.data.map (fun c => if c.isUpper then ['_', c.toLower] else [c.toLower])).flatten)

/-- Model of `generateSqlDDL`: only a flat object root is accepted; one
column per top-level key, numbers split into INTEGER/DECIMAL by
integrality, booleans BOOLEAN, nested objects and arrays JSONB, everything
else TEXT. -/
def generateSqlDDL (json : JsonValue) (tableName : String := "my_table") : String :=
  match json with
  | .obj fields =>
    let columns := fields.map (fun kv =>
      let sqlType :=
        match kv.2 with
        | .num q => if q.den = 1 then "INTEGER" else "DECIMAL"
        | .bool _ => "BOOLEAN"
        | .obj _ => "JSONB"
        | .arr _ => "JSONB"
        | _ => "TEXT"
      "    " ++ camelToSnake kv.1 ++ " " ++ sqlType)
    "CREATE TABLE " ++ tableName ++ " (\n" ++ String.intercalate ",\n" columns ++ "\n);"
  | _ => "-- Input must be a JSON object to generate a table schema"

/-! ## Helpers for the textual statements -/

/-- Substring occurrence test on character lists. -/
def containsSubAux (pat : List Char) : List Char → Bool
  | [] => pat.isEmpty
  | c :: t => pat.isPrefixOf (c :: t) || containsSubAux pat t

/-- Substring occurrence test on strings. -/
def containsSub (s pat : String) : Bool := containsSubAux pat.data s.data

/-- A concrete, computable oracle instance used by the witnesses: the XML
oracle accepts everything, the YAML oracle parses exactly the two-line
mapping of the claim, and the CSV oracle reports a single-column row. -/
def testExt : ExternalParsers where
  xml2js := fun _ => Except.ok (.obj [("root", .null)])
  yamlLoad := fun s =>
    if s = "a: 1\nb: 2" then Except.ok (.obj [("a", .num 1), ("b", .num 2)])
    else Except.error "unsupported"
  papaParse := fun _ => { data := [.obj [("col", .str "x")]], errors := [] }

/-! ## Consumption bounds for the JSON parser

The key fact powering every termination-style argument below: a successful
parse of `cs` returns a value whose weight is at most the number of
characters consumed.  In particular `parseJson s = some v` forces
`jweight v ≤ s.length`, strictly below `jweight (.str s) = s.length + 2`. -/

theorem skipWs_len (cs : List Char) : (skipWs cs).length ≤ cs.length := by
  induction cs with
  | nil => simp [skipWs]
  | cons c cs ih =>
    unfold skipWs
    split
    · exact le_trans ih (by simp)
    · simp

theorem dropWhile_len (p : Char → Bool) (cs : List Char) :
    (cs.dropWhile p).length ≤ cs.length := by
  induction cs with
  | nil => simp
  | cons c cs ih =>
    unfold List.dropWhile
    split
    · exact le_trans ih (by simp)
    · simp

theorem parseStringBody_len : ∀ cs sl rest, parseStringBody cs = some (sl, rest) →
    sl.length + 1 + rest.length ≤ cs.length := by
  intro cs
  induction cs using parseStringBody.induct
  all_goals intro sl rest h
  all_goals unfold parseStringBody at h
  all_goals simp_all [Option.map_eq_some']
  all_goals try obtain ⟨⟨s1, r1⟩, hp, he1, he2⟩ := h
  all_goals try simp_all
  all_goals omega

theorem parseIntPart_len : ∀ cs ip rest, parseIntPart cs = some (ip, rest) →
    rest.length < cs.length := by
  intro cs ip rest h
  unfold parseIntPart at h
  split at h
  · exact absurd h (by simp)
  next c cs2 =>
    split at h
    · simp only [Option.some.injEq, Prod.mk.injEq] at h
      obtain ⟨h1, h2⟩ := h
      subst h2
      simp
    · split at h
      · simp only [Option.some.injEq, Prod.mk.injEq] at h
        obtain ⟨h1, h2⟩ := h
        subst h2
        have := dropWhile_len Char.isDigit cs2
        simp only [List.length_cons]
        omega
      · exact absurd h (by simp)

theorem parseFrac_len : ∀ cs fvk rest, parseFrac cs = some (fvk, rest) →
    rest.length ≤ cs.length := by
  intro cs fvk rest h
  unfold parseFrac at h
  split at h
  next cs2 =>
    split at h
    · exact absurd h (by simp)
    · simp only [Option.some.injEq, Prod.mk.injEq] at h
      obtain ⟨h1, h2⟩ := h
      subst h2
      have := dropWhile_len Char.isDigit cs2
      simp only [List.length_cons]
      omega
  next =>
    simp only [Option.some.injEq, Prod.mk.injEq] at h
    obtain ⟨h1, h2⟩ := h
    subst h2
    exact le_refl _

theorem expDigits_len (neg : Bool) (cs : List Char) (e : Int) (rest : List Char)
    (h : expDigits neg cs = some (e, rest)) : rest.length ≤ cs.length := by
  unfold expDigits at h
  split at h
  · exact absurd h (by simp)
  · simp only [Option.some.injEq, Prod.mk.injEq] at h
    obtain ⟨h1, h2⟩ := h
    subst h2
    exact dropWhile_len Char.isDigit cs

theorem parseExpPart_len : ∀ cs e rest, parseExpPart cs = some (e, rest) →
    rest.length ≤ cs.length := by
  intro cs e rest h
  unfold parseExpPart at h
  split at h
  all_goals first
    | (have hh := expDigits_len _ _ _ _ h
       simp only [List.length_cons]
       omega)
    | (simp only [Option.some.injEq, Prod.mk.injEq] at h
       obtain ⟨h1, h2⟩ := h
       subst h2
       exact le_refl _)

theorem numSign_len (cs : List Char) : (numSign cs).2.length ≤ cs.length := by
  unfold numSign
  split <;> simp

theorem parseNumber_len : ∀ cs q rest, parseNumber cs = some (q, rest) →
    rest.length < cs.length := by
  intro cs q rest h
  unfold parseNumber at h
  split at h
  · exact absurd h (by simp)
  next ip cs2 hip =>
    split at h
    · exact absurd h (by simp)
    next fv fk cs3 hfrac =>
      split at h
      · exact absurd h (by simp)
      next e cs4 hexp =>
        simp only [Option.some.injEq, Prod.mk.injEq] at h
        obtain ⟨h1, h2⟩ := h
        subst h2
        have h2 := parseExpPart_len cs3 e _ hexp
        have h3 := parseFrac_len cs2 (fv, fk) cs3 hfrac
        have h4 := parseIntPart_len _ ip cs2 hip
        have h5 := numSign_len cs
        omega

theorem jweight_pos (v : JsonValue) : 1 ≤ jweight v := by
  cases v <;> simp only [jweight] <;> omega

theorem jweightList_mem (xs : List JsonValue) (x : JsonValue) (hx : x ∈ xs) :
    jweight x ≤ jweightList xs := by
  induction xs with
  | nil => cases hx
  | cons y ys ih =>
    rw [jweightList]
    rcases List.mem_cons.mp hx with h | h
    · subst h; omega
    · have := ih h; omega

theorem jweightFields_mem (fs : List (String × JsonValue)) (kv : String × JsonValue)
    (hkv : kv ∈ fs) : jweight kv.2 ≤ jweightFields fs := by
  induction fs with
  | nil => cases hkv
  | cons p ps ih =>
    rw [jweightFields]
    rcases List.mem_cons.mp hkv with h | h
    · subst h; omega
    · have := ih h; omega

theorem elemsLoop_len (pv : List Char → Option (JsonValue × List Char))
    (hpv : ∀ cs v r, pv cs = some (v, r) → jweight v + r.length ≤ cs.length) :
    ∀ f cs vs rest, elemsLoop pv f cs = some (vs, rest) →
      jweightList vs + rest.length + 1 ≤ cs.length := by
  intro f
  induction f with
  | zero => intro cs vs rest h; exact absurd h (by simp [elemsLoop])
  | succ f ih =>
    intro cs vs rest h
    unfold elemsLoop at h
    split at h
    · exact absurd h (by simp)
    next v r1 hv =>
      have h1 := hpv cs v r1 hv
      split at h
      next r2 hr2 =>
        split at h
        next vs2 rest2 hloop =>
          simp only [Option.some.injEq, Prod.mk.injEq] at h
          obtain ⟨hvs, hrest⟩ := h
          subst hvs; subst hrest
          have h2 := ih (skipWs r2) vs2 rest2 hloop
          have h3 := skipWs_len r2
          have h4 : (skipWs r1).length ≤ r1.length := skipWs_len r1
          rw [hr2] at h4
          simp only [List.length_cons] at h4
          rw [jweightList]
          omega
        · exact absurd h (by simp)
      next r2 hr2 =>
        simp only [Option.some.injEq, Prod.mk.injEq] at h
        obtain ⟨hvs, hrest⟩ := h
        subst hvs; subst hrest
        have h4 : (skipWs r1).length ≤ r1.length := skipWs_len r1
        rw [hr2] at h4
        simp only [List.length_cons] at h4
        simp only [jweightList]
        omega
      · exact absurd h (by simp)

theorem membersLoop_len (pv : List Char → Option (JsonValue × List Char))
    (hpv : ∀ cs v r, pv cs = some (v, r) → jweight v + r.length ≤ cs.length) :
    ∀ f cs ms rest, membersLoop pv f cs = some (ms, rest) →
      jweightFields ms + rest.length + 1 ≤ cs.length := by
  intro f
  induction f with
  | zero => intro cs ms rest h; exact absurd h (by simp [membersLoop])
  | succ f ih =>
    intro cs ms rest h
    unfold membersLoop at h
    split at h
    next r =>
      split at h
      next kl r1 hkey =>
        have hk := parseStringBody_len r kl r1 hkey
        split at h
        next r2 hr2 =>
          split at h
          next v r3 hv =>
            have h1 := hpv (skipWs r2) v r3 hv
            have h1b := skipWs_len r2
            have h2 : (skipWs r1).length ≤ r1.length := skipWs_len r1
            rw [hr2] at h2
            simp only [List.length_cons] at h2
            split at h
            next r4 hr4 =>
              split at h
              next ms2 rest2 hloop =>
                simp only [Option.some.injEq, Prod.mk.injEq] at h
                obtain ⟨hms, hrest⟩ := h
                subst hms; subst hrest
                have h3 := ih (skipWs r4) ms2 rest2 hloop
                have h4 := skipWs_len r4
                have h5 : (skipWs r3).length ≤ r3.length := skipWs_len r3
                rw [hr4] at h5
                simp only [List.length_cons] at h5
                simp only [jweightFields, List.length_cons]
                omega
              · exact absurd h (by simp)
            next r4 hr4 =>
              simp only [Option.some.injEq, Prod.mk.injEq] at h
              obtain ⟨hms, hrest⟩ := h
              subst hms; subst hrest
              have h5 : (skipWs r3).length ≤ r3.length := skipWs_len r3
              rw [hr4] at h5
              simp only [List.length_cons] at h5
              simp only [jweightFields, List.length_cons]
              omega
            · exact absurd h (by simp)
          · exact absurd h (by simp)
        · exact absurd h (by simp)
      · exact absurd h (by simp)
    · exact absurd h (by simp)

theorem parseVal_len : ∀ f cs v rest, parseVal f cs = some (v, rest) →
    jweight v + rest.length ≤ cs.length := by
  intro f
  induction f with
  | zero => intro cs v rest h; exact absurd h (by simp [parseVal])
  | succ f ih =>
    intro cs v rest h
    unfold parseVal at h
    split at h
    -- object case
    next r =>
      split at h
      next r2 hr2 =>
        simp only [Option.some.injEq, Prod.mk.injEq] at h
        obtain ⟨hv, hrest⟩ := h
        subst hv; subst hrest
        have h2 : (skipWs r).length ≤ r.length := skipWs_len r
        rw [hr2] at h2
        simp only [List.length_cons] at h2
        simp only [jweight, jweightFields, List.length_cons]
        omega
      next hne =>
        split at h
        next ms rest2 hloop =>
          simp only [Option.some.injEq, Prod.mk.injEq] at h
          obtain ⟨hv, hrest⟩ := h
          subst hv; subst hrest
          have h2 := membersLoop_len (parseVal f) ih f (skipWs r) ms rest2 hloop
          have h3 := skipWs_len r
          simp only [jweight, List.length_cons]
          omega
        · exact absurd h (by simp)
    -- array case
    next r =>
      split at h
      next r2 hr2 =>
        simp only [Option.some.injEq, Prod.mk.injEq] at h
        obtain ⟨hv, hrest⟩ := h
        subst hv; subst hrest
        have h2 : (skipWs r).length ≤ r.length := skipWs_len r
        rw [hr2] at h2
        simp only [List.length_cons] at h2
        simp only [jweight, jweightList, List.length_cons]
        omega
      next hne =>
        split at h
        next vs rest2 hloop =>
          simp only [Option.some.injEq, Prod.mk.injEq] at h
          obtain ⟨hv, hrest⟩ := h
          subst hv; subst hrest
          have h2 := elemsLoop_len (parseVal f) ih f (skipWs r) vs rest2 hloop
          have h3 := skipWs_len r
          simp only [jweight, List.length_cons]
          omega
        · exact absurd h (by simp)
    -- string case
    next r =>
      simp only [Option.map_eq_some'] at h
      obtain ⟨⟨sl, r1⟩, hsb, hv⟩ := h
      have h2 := parseStringBody_len r sl r1 hsb
      simp only [Prod.mk.injEq] at hv
      obtain ⟨hv1, hv2⟩ := hv
      subst hv1; subst hv2
      simp only [jweight, String.length, List.length_cons]
      omega
    -- null
    next r =>
      simp only [Option.some.injEq, Prod.mk.injEq] at h
      obtain ⟨hv, hrest⟩ := h
      subst hv; subst hrest
      simp only [jweight, List.length_cons]
      omega
    -- true
    next r =>
      simp only [Option.some.injEq, Prod.mk.injEq] at h
      obtain ⟨hv, hrest⟩ := h
      subst hv; subst hrest
      simp only [jweight, List.length_cons]
      omega
    -- false
    next r =>
      simp only [Option.some.injEq, Prod.mk.injEq] at h
      obtain ⟨hv, hrest⟩ := h
      subst hv; subst hrest
      simp only [jweight, List.length_cons]
      omega
    -- number
    next c cs2 =>
      split at h
      · split at h
        next q rest2 hnum =>
          simp only [Option.some.injEq, Prod.mk.injEq] at h
          obtain ⟨hv, hrest⟩ := h
          subst hv; subst hrest
          have h2 := parseNumber_len _ q rest2 hnum
          simp only [jweight]
          omega
        · exact absurd h (by simp)
      · exact absurd h (by simp)
    -- empty input
    · exact absurd h (by simp)

theorem parseJson_weight (s : String) (v : JsonValue) (h : parseJson s = some v) :
    jweight v ≤ s.length := by
  unfold parseJson at h
  split at h
  next w rest hval =>
    split at h
    · simp only [Option.some.injEq] at h
      subst h
      have h1 := parseVal_len _ _ _ _ hval
      have h2 := skipWs_len s.data
      have h3 : s.length = s.data.length := rfl
      omega
    · exact absurd h (by simp)
  · exact absurd h (by simp)

/-! ## Properties of the recursive unwrapper -/

theorem parseJson_not_self (s : String) (w : JsonValue) (h : parseJson s = some w) :
    strictEqStr w s = false := by
  cases w with
  | str t =>
    simp only [strictEqStr, decide_eq_false_iff_not]
    intro ht
    subst ht
    have h1 := parseJson_weight _ _ h
    simp only [jweight] at h1
    omega
  | null => rfl
  | bool b => rfl
  | num q => rfl
  | arr xs => rfl
  | obj fs => rfl

theorem unwrapF_flat : ∀ f v, jweight v ≤ f → Flat (unwrapF f v) := by
  intro f
  induction f with
  | zero =>
    intro v hv
    have := jweight_pos v
    omega
  | succ f ih =>
    intro v hv
    cases v with
    | null => exact Flat.null
    | bool b => exact Flat.bool b
    | num q => exact Flat.num q
    | arr xs =>
      simp only [unwrapF]
      refine Flat.arr _ ?_
      intro y hy
      obtain ⟨x, hx, hxy⟩ := List.mem_map.mp hy
      subst hxy
      refine ih x ?_
      have h1 := jweightList_mem xs x hx
      simp only [jweight] at hv
      omega
    | obj fs =>
      simp only [unwrapF]
      refine Flat.obj _ ?_
      intro p hp
      obtain ⟨kv, hkv, hkvp⟩ := List.mem_map.mp hp
      subst hkvp
      refine ih kv.2 ?_
      have h1 := jweightFields_mem fs kv hkv
      simp only [jweight] at hv
      omega
    | str s =>
      simp only [jweight] at hv
      cases hp : parseJson s with
      | none =>
        simp only [unwrapF, hp]
        exact Flat.str s hp
      | some w =>
        simp only [unwrapF, hp, parseJson_not_self s w hp, Bool.false_eq_true, if_false]
        have hw := parseJson_weight s w hp
        cases w with
        | num q => exact Flat.num q
        | bool b => exact Flat.bool b
        | null => exact ih .null (by simp only [jweight] at hw ⊢; omega)
        | str t => exact ih (.str t) (by omega)
        | arr xs => exact ih (.arr xs) (by omega)
        | obj fs => exact ih (.obj fs) (by omega)

/-! ## Properties of the format detector -/

theorem startsWithCh_false_of (t : String) (c d : Char) (h : startsWithCh t c = true)
    (hne : d ≠ c) : startsWithCh t d = false := by
  unfold startsWithCh at h ⊢
  split at h
  · exact absurd h (by simp)
  next e _ =>
    simp only [decide_eq_true_eq] at h
    subst h
    simp only [decide_eq_false_iff_not]
    exact fun hde => hne hde.symm

theorem jsonTry_format (t : String) (r : ParseResult)
    (h : catchAll (jsonTryBody t) = some r) : r.format = Format.json := by
  unfold jsonTryBody at h
  split at h
  · split at h
    · exact absurd h (by simp [catchAll])
    · simp only [catchAll, Option.some.injEq] at h
      subst h
      rfl
  · exact absurd h (by simp [catchAll])

theorem xmlTry_format (ext : ExternalParsers) (t : String) (r : ParseResult)
    (h : catchAll (xmlTryBody ext t) = some r) : r.format = Format.xml := by
  unfold xmlTryBody at h
  split at h
  · split at h
    · exact absurd h (by simp [catchAll])
    · simp only [catchAll, Option.some.injEq] at h
      subst h
      rfl
  · exact absurd h (by simp [catchAll])

theorem yamlTry_some (ext : ExternalParsers) (t : String) (r : ParseResult)
    (h : catchAll (yamlTryBody ext t) = some r) :
    hasChar t ':' = true ∧ hasChar t '\n' = true ∧
      ∃ v, ext.yamlLoad t = Except.ok v ∧ isObjLike v = true ∧
        r = { data := v, format := Format.yaml } := by
  unfold yamlTryBody at h
  split at h
  next hcond =>
    split at h
    · exact absurd h (by simp [catchAll])
    next v hv =>
      split at h
      next hobj =>
        simp only [catchAll, Option.some.injEq] at h
        subst h
        simp only [Bool.and_eq_true] at hcond
        exact ⟨hcond.1, hcond.2, v, hv, hobj, rfl⟩
      · exact absurd h (by simp [catchAll])
  · exact absurd h (by simp [catchAll])

theorem csvTry_format (ext : ExternalParsers) (t : String) (r : ParseResult)
    (h : catchAll (csvTryBody ext t) = some r) : r.format = Format.csv := by
  unfold csvTryBody at h
  split at h
  · split at h
    · split at h
      · exact absurd h (by simp [catchAll])
      · split at h
        · simp only [catchAll, Option.some.injEq] at h
          subst h
          rfl
        · exact absurd h (by simp [catchAll])
      · split at h
        · simp only [catchAll, Option.some.injEq] at h
          subst h
          rfl
        · exact absurd h (by simp [catchAll])
      · exact absurd h (by simp [catchAll])
    · exact absurd h (by simp [catchAll])
  · exact absurd h (by simp [catchAll])

theorem csvTry_none_of_single_col (ext : ExternalParsers) (t : String)
    (hobj : ∀ fs rest2, (ext.papaParse t).data = JsonValue.obj fs :: rest2 → fs.length ≤ 1)
    (harr : ∀ xs rest2, (ext.papaParse t).data = JsonValue.arr xs :: rest2 → xs.length ≤ 1) :
    catchAll (csvTryBody ext t) = none := by
  unfold csvTryBody
  split
  · split
    next first rest2 hdata =>
      split
      · rfl
      next fs =>
        have h1 := hobj fs rest2 hdata
        split
        next hgt => simp only [gt_iff_lt, decide_eq_true_eq] at hgt; omega
        · rfl
      next xs =>
        have h1 := harr xs rest2 hdata
        split
        next hgt => simp only [gt_iff_lt, decide_eq_true_eq] at hgt; omega
        · rfl
      · rfl
    · rfl
  · rfl

theorem fallbackTry_format (input : String) (r : ParseResult)
    (h : catchAll (fallbackTryBody input) = some r) : r.format = Format.json := by
  unfold fallbackTryBody at h
  split at h
  · simp only [catchAll, Option.some.injEq] at h
    subst h
    rfl
  · exact absurd h (by simp [catchAll])

theorem jsCatchStep_ok (x : Except String (Option ParseResult)) :
    jsCatchStep x = Except.ok (catchAll x) := by
  unfold jsCatchStep catchAll
  split <;> rfl

theorem exceptBind_ok {a b : Type} (x : a) (f : a → Except String b) :
    (Except.ok x >>= f) = f x := rfl

/-! ## The claims -/

/-- Claim C1: `parseRecursive` flattens every level of string-encoded JSON
into real structure: every string leaf of any output fails to parse as
JSON (predicate `Flat`), and on the text consisting of an object whose
field a holds the stringified object with field b and value 2 it returns
the fully structural nested object. -/
theorem C1_unwrap_flattens :
    (∀ v : JsonValue, Flat (parseRecursive v)) ∧
    parseRecursive (.str "\x7b\"a\":\"\x7b\\\"b\\\":2\x7d\"\x7d")
      = JsonValue.obj [("a", JsonValue.obj [("b", JsonValue.num 2)])] :=
  ⟨fun v => unwrapF_flat (jweight v) v (le_refl _), by rfl⟩

/-- Claim C4: the format detector is total and all underlying parser
exceptions are caught internally: the exception-level model `smartParseE`
never propagates an exception, returning exactly the pure `smartParse`
result for every oracle and every input string. -/
theorem C4_smartParse_total (ext : ExternalParsers) (input : String) :
    smartParseE ext input = Except.ok (smartParse ext input) := by
  unfold smartParseE smartParse
  by_cases h0 : trimJS input = ""
  · simp only [if_pos h0]
    rfl
  · simp only [if_neg h0, jsCatchStep_ok, exceptBind_ok]
    cases catchAll (jsonTryBody (trimJS input)) <;>
      cases catchAll (xmlTryBody ext (trimJS input)) <;>
        cases catchAll (yamlTryBody ext (trimJS input)) <;>
          cases catchAll (csvTryBody ext (trimJS input)) <;>
            cases catchAll (fallbackTryBody input) <;> rfl

/-- Claim C6: the unwrapper is the identity on terminal inputs: primitives
(numbers, booleans, null) are returned as is, and any string that is not
valid JSON is returned unchanged. -/
theorem C6_unwrap_identity_terminals :
    (∀ q : Rat, parseRecursive (.num q) = .num q) ∧
    (∀ b : Bool, parseRecursive (.bool b) = .bool b) ∧
    parseRecursive .null = .null ∧
    (∀ s : String, parseJson s = none → parseRecursive (.str s) = .str s) := by
  refine ⟨fun q => rfl, fun b => rfl, rfl, ?_⟩
  intro s hs
  show unwrapF (s.length + 1 + 1) (.str s) = .str s
  simp only [unwrapF, hs]

/-- Witness for C6 at the concrete non-JSON string abc. -/
theorem C6_unwrap_identity_terminals_witness :
    parseJson "abc" = none ∧ parseRecursive (.str "abc") = JsonValue.str "abc" :=
  ⟨by rfl, C6_unwrap_identity_terminals.2.2.2 "abc" (by rfl)⟩

/-- Claim C7: unwrapping the five-character text abc-in-quotes yields the
bare string abc. -/
theorem C7_unwrap_quoted_primitive :
    parseRecursive (.str "\"abc\"") = JsonValue.str "abc" := by rfl

/-- Claim C10: there is a non-empty, non-whitespace input (the word null
wrapped in JSON quotes; its trimmed form keeps all six characters) on
which the detector reports format json with data null, for every
oracle. -/
theorem C10_json_with_null_data :
    (trimJS "\"null\"").length = 6 ∧
    ∀ ext : ExternalParsers,
      smartParse ext "\"null\"" = { data := JsonValue.null, format := Format.json } :=
  ⟨rfl, fun _ => rfl⟩

/-- Claim C3: the detector obeys the fixed candidate priority order.
Conjuncts: (1) the concrete object text with field a and value 1 is
classified json, for every oracle; (2) any input whose trimmed text is
non-empty, starts with an angle bracket and is accepted by the XML oracle
is classified xml, however many colons and newlines it contains; (3) the
two-line colon-separated text is classified yaml whenever the YAML oracle
parses it to a mapping; (4) input whose first CSV row has at most one
column is never classified csv. -/
theorem C3_detector_priority :
    (∀ ext : ExternalParsers,
       smartParse ext "\x7b\"a\":1\x7d"
         = { data := .obj [("a", .num 1)], format := Format.json }) ∧
    (∀ (ext : ExternalParsers) (input : String) (v : JsonValue),
       trimJS input ≠ "" → startsWithCh (trimJS input) '<' = true →
       ext.xml2js (trimJS input) = Except.ok v →
       (smartParse ext input).format = Format.xml) ∧
    (∀ (ext : ExternalParsers) (fs : List (String × JsonValue)),
       ext.yamlLoad "a: 1\nb: 2" = Except.ok (.obj fs) →
       (smartParse ext "a: 1\nb: 2").format = Format.yaml) ∧
    (∀ (ext : ExternalParsers) (input : String),
       (∀ fs rest2, (ext.papaParse (trimJS input)).data = JsonValue.obj fs :: rest2 →
          fs.length ≤ 1) →
       (∀ xs rest2, (ext.papaParse (trimJS input)).data = JsonValue.arr xs :: rest2 →
          xs.length ≤ 1) →
       (smartParse ext input).format ≠ Format.csv) := by
  refine ⟨fun _ => rfl, ?_, ?_, ?_⟩
  · intro ext input v h1 h2 h3
    unfold smartParse
    rw [if_neg h1]
    have hj : catchAll (jsonTryBody (trimJS input)) = none := by
      unfold jsonTryBody
      rw [startsWithCh_false_of _ '<' '\x7b' h2 (by decide),
          startsWithCh_false_of _ '<' '[' h2 (by decide),
          startsWithCh_false_of _ '<' '"' h2 (by decide)]
      rfl
    rw [hj]
    have hx : catchAll (xmlTryBody ext (trimJS input))
        = some { data := v, format := Format.xml } := by
      unfold xmlTryBody
      rw [h2, h3]
      rfl
    rw [hx]
  · intro ext fs hy
    have ht : trimJS "a: 1\nb: 2" = "a: 1\nb: 2" := rfl
    unfold smartParse
    rw [if_neg (by decide)]
    have hj : catchAll (jsonTryBody (trimJS "a: 1\nb: 2")) = none := rfl
    have hx : catchAll (xmlTryBody ext (trimJS "a: 1\nb: 2")) = none := by
      unfold xmlTryBody
      rfl
    rw [hj, hx]
    have hyb : catchAll (yamlTryBody ext (trimJS "a: 1\nb: 2"))
        = some { data := .obj fs, format := Format.yaml } := by
      unfold yamlTryBody
      rw [ht, hy]
      rfl
    rw [hyb]
  · intro ext input hobj harr
    unfold smartParse
    by_cases h0 : trimJS input = ""
    · rw [if_pos h0]
      decide
    · rw [if_neg h0]
      cases hj : catchAll (jsonTryBody (trimJS input)) with
      | some r =>
        have hf := jsonTry_format _ _ hj
        intro hcsv
        rw [hcsv] at hf
        exact absurd hf (by decide)
      | none =>
        cases hx : catchAll (xmlTryBody ext (trimJS input)) with
        | some r =>
          have hf := xmlTry_format _ _ _ hx
          intro hcsv
          rw [hcsv] at hf
          exact absurd hf (by decide)
        | none =>
          cases hy : catchAll (yamlTryBody ext (trimJS input)) with
          | some r =>
            obtain ⟨_, _, v, _, _, hr⟩ := yamlTry_some _ _ _ hy
            subst hr
            show Format.yaml ≠ Format.csv
            decide
          | none =>
            rw [csvTry_none_of_single_col ext (trimJS input) hobj harr]
            cases hf : catchAll (fallbackTryBody input) with
            | some r =>
              have hff := fallbackTry_format _ _ hf
              intro hcsv
              rw [hcsv] at hff
              exact absurd hff (by decide)
            | none =>
              show Format.unknown ≠ Format.csv
              decide

/-- Witness for C3 at concrete inputs and the concrete oracle `testExt`:
an XML-looking input is classified xml, the two-line mapping is classified
yaml, and a single-column input is not classified csv. -/
theorem C3_detector_priority_witness :
    (smartParse testExt "<a/>").format = Format.xml ∧
    (smartParse testExt "a: 1\nb: 2").format = Format.yaml ∧
    (smartParse testExt "x").format ≠ Format.csv := by
  refine ⟨C3_detector_priority.2.1 testExt "<a/>" (.obj [("root", .null)])
            (by decide) (by rfl) (by rfl),
          C3_detector_priority.2.2.1 testExt [("a", .num 1), ("b", .num 2)] (by rfl),
          C3_detector_priority.2.2.2 testExt "x" ?_ ?_⟩
  · intro fs rest2 h
    injection h with h1 h2
    injection h1 with h3
    subst h3
    decide
  · intro xs rest2 h
    injection h with h1 h2
    exact absurd h1 (by simp)

/-- Claim C5: a result is classified yaml only when the trimmed text
contains both a colon and a newline and the YAML oracle returned a
non-null mapping or sequence; null or scalar parses are never accepted as
yaml. -/
theorem C5_yaml_gating (ext : ExternalParsers) (input : String)
    (h : (smartParse ext input).format = Format.yaml) :
    hasChar (trimJS input) ':' = true ∧ hasChar (trimJS input) '\n' = true ∧
      ∃ v, ext.yamlLoad (trimJS input) = Except.ok v ∧ isObjLike v = true := by
  unfold smartParse at h
  by_cases h0 : trimJS input = ""
  · rw [if_pos h0] at h
    exact absurd h (by decide)
  · rw [if_neg h0] at h
    cases hj : catchAll (jsonTryBody (trimJS input)) with
    | some r =>
      rw [hj] at h
      have hf := jsonTry_format _ _ hj
      rw [h] at hf
      exact absurd hf (by decide)
    | none =>
      rw [hj] at h
      cases hx : catchAll (xmlTryBody ext (trimJS input)) with
      | some r =>
        rw [hx] at h
        have hf := xmlTry_format _ _ _ hx
        rw [h] at hf
        exact absurd hf (by decide)
      | none =>
        rw [hx] at h
        cases hy : catchAll (yamlTryBody ext (trimJS input)) with
        | some r =>
          obtain ⟨hc1, hc2, v, hv, hvo, hr⟩ := yamlTry_some _ _ _ hy
          exact ⟨hc1, hc2, v, hv, hvo⟩
        | none =>
          rw [hy] at h
          cases hc : catchAll (csvTryBody ext (trimJS input)) with
          | some r =>
            rw [hc] at h
            have hf := csvTry_format _ _ _ hc
            rw [h] at hf
            exact absurd hf (by decide)
          | none =>
            rw [hc] at h
            cases hfb : catchAll (fallbackTryBody input) with
            | some r =>
              rw [hfb] at h
              have hf := fallbackTry_format _ _ hfb
              rw [h] at hf
              exact absurd hf (by decide)
            | none =>
              rw [hfb] at h
              exact absurd h (by decide)

/-- Witness for C5 at the two-line mapping input and the oracle `testExt`,
which is classified yaml. -/
theorem C5_yaml_gating_witness :
    hasChar (trimJS "a: 1\nb: 2") ':' = true ∧
    hasChar (trimJS "a: 1\nb: 2") '\n' = true ∧
      ∃ v, testExt.yamlLoad (trimJS "a: 1\nb: 2") = Except.ok v ∧ isObjLike v = true :=
  C5_yaml_gating testExt "a: 1\nb: 2" (by rfl)

/-- Claim C8: the relational-table generator distinguishes integral from
fractional numeric samples: price 10.5 (the rational 21/2) maps to a
DECIMAL column and id 1 to an INTEGER column. -/
theorem C8_sql_integer_vs_decimal :
    generateSqlDDL (.obj [("price", .num (mkRat 21 2))]) "my_table"
        = "CREATE TABLE my_table (\n    price DECIMAL\n);" ∧
    generateSqlDDL (.obj [("id", .num 1)]) "my_table"
        = "CREATE TABLE my_table (\n    id INTEGER\n);" := by
  constructor <;> rfl

/-- Claim C9: all four schema generators are deterministic: two runs on
identical input and root name produce equal output strings. -/
theorem C9_generators_deterministic :
    ∀ (v : JsonValue) (name : String),
      generateTypeScriptInterfaces v name = generateTypeScriptInterfaces v name ∧
      generateZodSchema v name = generateZodSchema v name ∧
      generateJavaPOJO v name = generateJavaPOJO v name ∧
      generateSqlDDL v name = generateSqlDDL v name :=
  fun _ _ => ⟨rfl, rfl, rfl, rfl⟩

/-- Counterexample to claim C2: on the nested object with field a holding
an object with field b, both generators emit the container block first.
The first TypeScript block references type A (it contains the field line
with type A) but does not define A; A is defined only in the second block,
so the reference textually precedes the definition.  The Java POJO output
violates the claim at the same input in the same way. -/
theorem C2_counterexample :
    tsBlocks (.obj [("a", .obj [("b", .num 1)])]) "Root"
      = ["export interface Root \x7b\n  a: A;\n\x7d",
         "export interface A \x7b\n  b: number;\n\x7d"] ∧
    containsSub "export interface Root \x7b\n  a: A;\n\x7d" ": A;" = true ∧
    containsSub "export interface Root \x7b\n  a: A;\n\x7d" "export interface A " = false ∧
    javaClasses (.obj [("a", .obj [("b", .num 1)])]) "Root"
      = ["@Data\npublic class Root \x7b\n    @JsonProperty(\"a\")\n    private A a;\n\x7d",
         "@Data\npublic class A \x7b\n    @JsonProperty(\"b\")\n    private Integer b;\n\x7d"] ∧
    containsSub "@Data\npublic class Root \x7b\n    @JsonProperty(\"a\")\n    private A a;\n\x7d"
        "private A a;" = true ∧
    containsSub "@Data\npublic class Root \x7b\n    @JsonProperty(\"a\")\n    private A a;\n\x7d"
        "class A " = false := by
  refine ⟨rfl, rfl, rfl, rfl, rfl, rfl⟩

/-- Amended claim C2: the interface-style and class-style generators emit
the container first: for every object input the first emitted block is
the definition of the container itself and all nested type definitions
follow it (the
reverse of the claimed order; references to nested types therefore precede
their definitions). -/
theorem C2_amended_container_first :
    ∀ (fs : List (String × JsonValue)) (name : String),
      tsBlocks (.obj fs) name
        = tsInterfaceBlock name
            (tsFields (tsTraverse (jweightFields fs)) (getTypeName (jweightFields fs)) fs).1
          :: (tsFields (tsTraverse (jweightFields fs)) (getTypeName (jweightFields fs)) fs).2.reverse ∧
      javaClasses (.obj fs) name
        = javaClassDecl name
            (javaFields (javaTraverse (jweightFields fs)) (getJavaType (jweightFields fs)) fs).1
          :: (javaFields (javaTraverse (jweightFields fs)) (getJavaType (jweightFields fs)) fs).2.reverse := by
  intro fs name
  constructor
  · show (tsTraverse (jweightFields fs + 1) (.obj fs) name).reverse = _
    simp only [tsTraverse, List.reverse_append, List.reverse_cons, List.reverse_nil,
      List.nil_append, List.cons_append]
  · show (javaTraverse (jweightFields fs + 1) (.obj fs) name).reverse = _
    simp only [javaTraverse, List.reverse_append, List.reverse_cons, List.reverse_nil,
      List.nil_append, List.cons_append]

end JsonProcessor
